import Mathlib

/-!
Shallow embedding of the core of `src/app.py` (a Gradio chat front-end for
OpenAI-style streaming chat endpoints), together with theorems settling the
specification claims about its transcript codec, streaming response
assembler, context builder, error handling and session-state updates.

Python strings are embedded as `List Char`; Python truthiness of a string is
emptiness; `str.strip()` is embedded as stripping ASCII whitespace from both
ends; `s.split(m)[-1]` (the suffix after the last non-overlapping occurrence
of `m`, scanning left to right) is embedded by iterating a first-occurrence
scan.
-/

namespace ChatApp

/-- Embedded Python string. -/
abbrev Str := List Char

/-- String literal helper. -/
def S (s : String) : Str := s.toList

/-- Characters treated as whitespace by Python `str.strip()` (ASCII range). -/
def pyIsSpace (c : Char) : Bool :=
  c == ' ' || c == '\t' || c == '\n' || c == '\r' || c == Char.ofNat 11 || c == Char.ofNat 12

/-- Embedding of Python `s.strip()`: drop whitespace from both ends. -/
def pyStrip (l : Str) : Str :=
  ((l.dropWhile pyIsSpace).reverse.dropWhile pyIsSpace).reverse

/-- Suffix of `s` after the first (leftmost) occurrence of `m`, if `m`
occurs in `s`.  `none` means `m` does not occur (Python `m not in s`,
for nonempty `m`). -/
def afterFirst? (m : Str) : Str → Option Str
  | [] => none
  | c :: cs =>
    if m.isPrefixOf (c :: cs) then some ((c :: cs).drop m.length)
    else afterFirst? m cs

/-- Embedding of Python `m in s` for a nonempty pattern `m`. -/
def occurs (m s : Str) : Bool := (afterFirst? m s).isSome

/-- Iterate the first-occurrence scan; with enough fuel this computes the
suffix after the last occurrence found by a left-to-right non-overlapping
scan, i.e. Python `s.split(m)[-1]`. -/
def afterLastAux (m : Str) : Nat → Str → Str
  | 0, s => s
  | fuel + 1, s =>
    match afterFirst? m s with
    | none => s
    | some rest => afterLastAux m fuel rest

/-- Embedding of Python `s.split(m)[-1]`: the text after the last
occurrence of `m` in the left-to-right scan; `s` itself if `m` does not
occur. -/
def afterLast (m s : Str) : Str := afterLastAux m (s.length + 1) s

/-- The answer-section marker searched for when rebuilding context
(`">> ## 完整回复"`, app.py line 194). -/
def answerMarker : Str :=
  '>' :: '>' :: ' ' :: '#' :: '#' :: ' ' :: '完' :: '整' :: '回' :: '复' :: []

/-- The begin-reasoning display marker (`">> ## 思考过程\n\n"`, app.py
line 239). -/
def beginThink : Str :=
  '>' :: '>' :: ' ' :: '#' :: '#' :: ' ' :: '思' :: '考' :: '过' :: '程' :: '\n' :: '\n' :: []

/-- The reasoning-to-answer transition display marker
(`"\n\n>> ## 完整回复\n\n"`, app.py line 247). -/
def transMarker : Str := '\n' :: '\n' :: (answerMarker ++ ('\n' :: '\n' :: []))

/-- Legacy marker opening tag (`"<details>"`, app.py line 196). -/
def detailsOpen : Str := S "<details>"

/-- Legacy marker closing tag (`"</details>"`, app.py line 197). -/
def detailsClose : Str := S "</details>"

/-- Decoding of a stored assistant transcript entry when rebuilding context
(app.py lines 193-197): split at the last occurrence of the current answer
marker and strip, else at the last `"</details>"` if `"<details>"` is
present, else pass the entry through unchanged. -/
def decodeAssistant (content : Str) : Str :=
  if occurs answerMarker content then pyStrip (afterLast answerMarker content)
  else if occurs detailsOpen content then pyStrip (afterLast detailsClose content)
  else content

/-! ### Context builder (app.py lines 163-202) -/

/-- One typed part of a Gradio 6.0 structured content list. -/
structure ContentPart where
  ptype : Str
  text : Str
deriving DecidableEq

/-- Message content: a plain string or a list of typed parts. -/
inductive RawContent where
  | str (s : Str)
  | parts (l : List ContentPart)
deriving DecidableEq

/-- Concatenation of the `"text"`-typed parts of a structured content list
(app.py lines 181-186). -/
def partsText : List ContentPart → Str
  | [] => []
  | p :: ps => (if p.ptype == S "text" then p.text else []) ++ partsText ps

/-- Normalised textual content of a history entry. -/
def normContent : RawContent → Str
  | .str s => s
  | .parts l => partsText l

/-- A history entry as delivered by the UI layer. -/
structure HistMsg where
  role : Str
  content : RawContent
deriving DecidableEq

/-- Processing of one sliced history entry (app.py lines 175-199): skip
entries whose raw content is empty or whitespace-only, decode assistant
entries through the marker split, forward everything else unchanged. -/
def msgEntry? (msg : HistMsg) : Option (Str × Str) :=
  let content := normContent msg.content
  if (pyStrip content).isEmpty then none
  else if msg.role == S "assistant" then some (msg.role, decodeAssistant content)
  else some (msg.role, content)

/-- The loop over the sliced history (app.py lines 175-199). -/
def processMsgs (l : List HistMsg) : List (Str × Str) := l.filterMap msgEntry?

/-- Embedding of the Python slice `l[-k:]` (note `l[-0:]` is all of `l`). -/
def pyLastSlice (k : Nat) (l : List HistMsg) : List HistMsg :=
  if k = 0 then l else l.drop (l.length - k)

/-- The message list built for the remote request (app.py lines 163-202):
system prompt, the last `context_size * 2` history entries processed by
`msgEntry?`, then the current user message. -/
def buildMessages (systemPrompt : Str) (contextSize : Nat) (history : List HistMsg)
    (message : Str) : List (Str × Str) :=
  (S "system", systemPrompt) ::
    (processMsgs (pyLastSlice (contextSize * 2) history) ++ [(S "user", message)])

/-! ### Streaming response assembler (app.py lines 228-248) -/

/-- One streamed chunk delta: optional `reasoning_content`, optional
`reasoning`, optional `content` field. -/
structure Delta where
  reasoning_content : Option Str
  reasoning : Option Str
  content : Option Str
deriving DecidableEq

/-- Python truthiness of an optional string field. -/
def truthyOpt : Option Str → Bool
  | some s => !s.isEmpty
  | none => false

/-- Python `a or b` on two optional string fields. -/
def pyOrOpt (a b : Option Str) : Option Str :=
  if truthyOpt a then a else b

/-- Value of an optional string field (only used under a truthiness test). -/
def optVal (o : Option Str) : Str := o.getD []

/-- `reasoning_content or reasoning` of a delta (app.py line 235). -/
def rcOf (d : Delta) : Option Str := pyOrOpt d.reasoning_content d.reasoning

/-- Fragments yielded by the reasoning branch for one chunk (app.py lines
236-240): on the first effective reasoning fragment the begin-reasoning
marker is yielded first. -/
def chunkOut1 (enabled supports started : Bool) (d : Delta) : List Str :=
  if truthyOpt (rcOf d) && enabled && supports then
    (if started then [optVal (rcOf d)] else [beginThink, optVal (rcOf d)])
  else []

/-- `thinking_started` after processing the reasoning branch of one chunk. -/
def startedAfter (enabled supports started : Bool) (d : Delta) : Bool :=
  started || (truthyOpt (rcOf d) && enabled && supports)

/-- Whether this chunk triggers the reasoning-to-answer transition (app.py
line 245). -/
def transFlag (enabled supports started ended : Bool) (d : Delta) : Bool :=
  truthyOpt d.content && startedAfter enabled supports started d && !ended
    && enabled && supports

/-- Fragments yielded by the content branch for one chunk (app.py lines
243-248): on the transition the answer marker is yielded first. -/
def chunkOut2 (enabled supports started ended : Bool) (d : Delta) : List Str :=
  if truthyOpt d.content then
    (if transFlag enabled supports started ended d then [transMarker, optVal d.content]
     else [optVal d.content])
  else []

/-- `thinking_ended` after processing one chunk. -/
def endedAfter (enabled supports started ended : Bool) (d : Delta) : Bool :=
  ended || transFlag enabled supports started ended d

/-- The streaming loop (app.py lines 228-248): fold the per-chunk yields in
arrival order, threading the `thinking_started` / `thinking_ended` flags. -/
def streamRun (enabled supports : Bool) : Bool → Bool → List Delta → List Str
  | _, _, [] => []
  | started, ended, d :: ds =>
    chunkOut1 enabled supports started d ++ chunkOut2 enabled supports started ended d ++
      streamRun enabled supports (startedAfter enabled supports started d)
        (endedAfter enabled supports started ended d) ds

/-- Fragments yielded for a whole stream, from the initial state. -/
def streamOutputs (enabled supports : Bool) (ds : List Delta) : List Str :=
  streamRun enabled supports false false ds

/-- Concatenation of a fragment sequence: the transcript entry accumulated
by the UI loop (app.py lines 357-360). -/
def strJoin : List Str → Str
  | [] => []
  | s :: r => s ++ strJoin r

/-- A chunk carrying only a reasoning fragment. -/
def rChunk (r : Str) : Delta := ⟨some r, none, none⟩

/-- A chunk carrying only an answer fragment. -/
def aChunk (a : Str) : Delta := ⟨none, none, some a⟩

/-- The stored transcript entry produced for a turn whose stream delivers
reasoning text `R` followed by answer text `A` (the encode direction of the
transcript codec: the joined yields of the streaming loop). -/
def encodeEntry (enabled supports : Bool) (R A : Str) : Str :=
  strJoin (streamOutputs enabled supports [rChunk R, aChunk A])

/-! ### Tagged view of the assembler output, used to state order and
marker-placement properties. -/

/-- A display fragment tagged with its origin. -/
inductive OutFrag where
  | beginMark
  | transMark
  | rfrag (s : Str)
  | afrag (s : Str)
deriving DecidableEq

/-- The raw string a tagged fragment renders to. -/
def OutFrag.render : OutFrag → Str
  | .beginMark => beginThink
  | .transMark => transMarker
  | .rfrag s => s
  | .afrag s => s

/-- The text of a non-marker fragment. -/
def fragText : OutFrag → Option Str
  | .rfrag s => some s
  | .afrag s => some s
  | _ => none

/-- Tagged twin of `chunkOut1`. -/
def chunkOut1T (enabled supports started : Bool) (d : Delta) : List OutFrag :=
  if truthyOpt (rcOf d) && enabled && supports then
    (if started then [.rfrag (optVal (rcOf d))]
     else [.beginMark, .rfrag (optVal (rcOf d))])
  else []

/-- Tagged twin of `chunkOut2`. -/
def chunkOut2T (enabled supports started ended : Bool) (d : Delta) : List OutFrag :=
  if truthyOpt d.content then
    (if transFlag enabled supports started ended d then [.transMark, .afrag (optVal d.content)]
     else [.afrag (optVal d.content)])
  else []

/-- Tagged twin of `streamRun`. -/
def streamRunT (enabled supports : Bool) : Bool → Bool → List Delta → List OutFrag
  | _, _, [] => []
  | started, ended, d :: ds =>
    chunkOut1T enabled supports started d ++ chunkOut2T enabled supports started ended d ++
      streamRunT enabled supports (startedAfter enabled supports started d)
        (endedAfter enabled supports started ended d) ds

/-- The fragments of a stream in arrival order (with reasoning enabled and
supported): per chunk, its effective reasoning fragment then its content
fragment. -/
def displayedFrags : List Delta → List Str
  | [] => []
  | d :: ds =>
    (if truthyOpt (rcOf d) then [optVal (rcOf d)] else []) ++
      (if truthyOpt d.content then [optVal d.content] else []) ++ displayedFrags ds

/-- The answer fragments of a stream in arrival order. -/
def answerFrags : List Delta → List Str
  | [] => []
  | d :: ds => (if truthyOpt d.content then [optVal d.content] else []) ++ answerFrags ds

/-! ### Per-turn fault handling (app.py lines 250-261) -/

/-- The faults the remote stream may raise. -/
inductive Fault where
  | auth
  | rateLimit
  | api (code : Option Str)
  | other (msg : Str)
deriving DecidableEq

/-- The single user-visible error fragment yielded for a fault (app.py
lines 250-261). -/
def errMsg : Fault → Str
  | .auth => S "错误: API 密钥无效或已过期，请检查配置"
  | .rateLimit => S "错误: API 请求过于频繁，请稍后再试"
  | .api code => S "错误: 模型服务异常 (" ++ code.getD (S "unknown") ++ S ")"
  | .other m => S "错误: " ++ m

/-- Result of consuming the remote stream: the chunks delivered before the
stream ended, and the fault (if any) that terminated it. -/
structure StreamResult where
  chunks : List Delta
  fault : Option Fault
deriving DecidableEq

/-- The complete yield sequence of one `chat_response` turn: the streaming
loop on the delivered chunks; if a fault terminated the stream, the single
error fragment is yielded instead of the exception propagating (app.py
lines 204-261). -/
def chatResponseOutputs (enabled supports : Bool) (sr : StreamResult) : List Str :=
  streamOutputs enabled supports sr.chunks ++
    (match sr.fault with
     | none => []
     | some f => [errMsg f])

/-! ### Session state updates (app.py lines 26-31, 111-155) -/

/-- A configured model profile; `supports_thinking` is `none` when the flag
is absent from the configuration (read back with default `false`). -/
structure ModelConfig where
  id : Str
  supports_thinking : Option Bool
deriving DecidableEq

/-- Per-session user state (app.py lines 26-31). -/
structure UserState where
  model_id : Str
  context_size : Nat
  system_prompt : Str
  enable_thinking : Bool
deriving DecidableEq

/-- `get_model_config` (app.py lines 111-113): dictionary lookup by id with
the first configured model as fallback; on duplicate ids the dict keeps the
last occurrence, hence the reversed search. -/
def getModelConfig (models : List ModelConfig) (fallback : ModelConfig) (mid : Str) :
    ModelConfig :=
  ((models.reverse.find? (fun m0 => m0.id == mid)).getD fallback)

/-- `update_model` (app.py lines 126-135): select the model, then force
`enable_thinking` off unless the selected configuration supports thinking. -/
def update_model (models : List ModelConfig) (fallback : ModelConfig) (mid : Str)
    (st : UserState) : UserState :=
  let st2 := { st with model_id := mid }
  let mc := getModelConfig models fallback mid
  if mc.supports_thinking.getD false then st2 else { st2 with enable_thinking := false }

/-- `update_system_prompt` (app.py lines 150-155): blank input falls back to
the configured default prompt; the stored prompt is stripped. -/
def update_system_prompt (configPrompt : Str) (prompt : Str) (st : UserState) : UserState :=
  let applied := if prompt.isEmpty || (pyStrip prompt).isEmpty then configPrompt else prompt
  { st with system_prompt := pyStrip applied }

/-- A concrete transcript of 8 complete turns (16 role-tagged entries, none
empty), used for the context-window claim. -/
def hist16 : List HistMsg :=
  [⟨S "user", .str (S "u1")⟩, ⟨S "assistant", .str (S "a1")⟩,
   ⟨S "user", .str (S "u2")⟩, ⟨S "assistant", .str (S "a2")⟩,
   ⟨S "user", .str (S "u3")⟩, ⟨S "assistant", .str (S "a3")⟩,
   ⟨S "user", .str (S "u4")⟩, ⟨S "assistant", .str (S "a4")⟩,
   ⟨S "user", .str (S "u5")⟩, ⟨S "assistant", .str (S "a5")⟩,
   ⟨S "user", .str (S "u6")⟩, ⟨S "assistant", .str (S "a6")⟩,
   ⟨S "user", .str (S "u7")⟩, ⟨S "assistant", .str (S "a7")⟩,
   ⟨S "user", .str (S "u8")⟩, ⟨S "assistant", .str (S "a8")⟩]

/-! ## Helper lemmas on the marker scan -/

/-- Characterisation of `isPrefixOf` by an append decomposition. -/
theorem isPrefixOf_iff_append (m : Str) : ∀ s : Str, m.isPrefixOf s = true ↔ ∃ t, s = m ++ t := by
  induction m with
  | nil => intro s; simp [List.isPrefixOf]
  | cons c ms ih =>
    intro s
    cases s with
    | nil => simp [List.isPrefixOf]
    | cons b bs =>
      simp only [List.isPrefixOf, Bool.and_eq_true, beq_iff_eq, ih bs, List.cons_append,
        List.cons.injEq]
      constructor
      · rintro ⟨hcb, t, ht⟩
        exact ⟨t, hcb.symm, ht⟩
      · rintro ⟨t, hbc, ht⟩
        exact ⟨hbc.symm, t, ht⟩

/-- A successful first-occurrence scan yields an append decomposition. -/
theorem afterFirst?_decomp (m : Str) :
    ∀ (s r : Str), afterFirst? m s = some r → ∃ p, s = p ++ m ++ r := by
  intro s
  induction s with
  | nil => intro r h; simp [afterFirst?] at h
  | cons c cs ih =>
    intro r h
    rw [afterFirst?] at h
    split at h
    case isTrue hp =>
      obtain ⟨t, ht⟩ := (isPrefixOf_iff_append m (c :: cs)).1 hp
      injection h with h2
      have hrt : r = t := by rw [← h2, ht, List.drop_left]
      exact ⟨[], by rw [List.nil_append, ht, hrt]⟩
    case isFalse hp =>
      obtain ⟨p, hp2⟩ := ih r h
      exact ⟨c :: p, by simp [hp2, List.append_assoc]⟩

/-- A pattern occurs in any string it is explicitly appended into. -/
theorem occurs_concat (m : Str) (hm : m ≠ []) :
    ∀ x y : Str, occurs m (x ++ m ++ y) = true := by
  intro x
  induction x with
  | nil =>
    intro y
    obtain ⟨c, ms, rfl⟩ := List.exists_cons_of_ne_nil hm
    rw [List.nil_append, List.cons_append, occurs, afterFirst?]
    have hp : (c :: ms).isPrefixOf (c :: (ms ++ y)) = true :=
      (isPrefixOf_iff_append (c :: ms) (c :: (ms ++ y))).2 ⟨y, by simp⟩
    simp [hp]
  | cons c cs ih =>
    intro y
    rw [List.cons_append, List.cons_append, occurs, afterFirst?]
    split
    · rfl
    · have := ih y
      rwa [occurs] at this

/-- The remainder after a successful scan step is strictly shorter. -/
theorem afterFirst?_length (m : Str) (hm : m ≠ []) {s r : Str}
    (h : afterFirst? m s = some r) : r.length < s.length := by
  obtain ⟨p, hp⟩ := afterFirst?_decomp m s r h
  have hml : 0 < m.length := List.length_pos.2 hm
  rw [hp]
  simp [List.length_append]
  omega

/-- With no occurrence the iterated scan is the identity. -/
theorem afterLastAux_of_noOcc {m s : Str} (h : occurs m s = false) :
    ∀ fuel, afterLastAux m fuel s = s := by
  intro fuel
  cases fuel with
  | zero => rfl
  | succ n =>
    have hn : afterFirst? m s = none := by
      cases hh : afterFirst? m s with
      | none => rfl
      | some r => rw [occurs, hh] at h; simp at h
    rw [afterLastAux, hn]

/-- The iterated scan lands on a suffix after an occurrence of the pattern,
with no further occurrence in that suffix. -/
theorem afterLastAux_char (m : Str) (hm : m ≠ []) :
    ∀ (fuel : Nat) (s : Str), s.length < fuel → occurs m s = true →
      ∃ p, s = p ++ m ++ afterLastAux m fuel s ∧
        occurs m (afterLastAux m fuel s) = false := by
  intro fuel
  induction fuel with
  | zero => intro s h; exact absurd h (Nat.not_lt_zero _)
  | succ n ih =>
    intro s hlen hocc
    obtain ⟨r, hr⟩ : ∃ r, afterFirst? m s = some r := by
      rw [occurs] at hocc
      cases hh : afterFirst? m s with
      | none => rw [hh] at hocc; simp at hocc
      | some r => exact ⟨r, rfl⟩
    obtain ⟨p0, hp0⟩ := afterFirst?_decomp m s r hr
    have hlr : r.length < s.length := afterFirst?_length m hm hr
    have hstep : afterLastAux m (n + 1) s = afterLastAux m n r := by
      rw [afterLastAux, hr]
    by_cases hocc2 : occurs m r = true
    · obtain ⟨p1, hp1, hno⟩ := ih r (by omega) hocc2
      refine ⟨p0 ++ m ++ p1, ?_, ?_⟩
      · rw [hstep]
        set t := afterLastAux m n r with ht
        rw [hp0, hp1]
        simp [List.append_assoc]
      · rw [hstep]; exact hno
    · have hocc2f : occurs m r = false := by
        cases hv : occurs m r with
        | false => rfl
        | true => exact absurd hv hocc2
      have hid : afterLastAux m n r = r := afterLastAux_of_noOcc hocc2f n
      refine ⟨p0, ?_, ?_⟩
      · rw [hstep, hid]; exact hp0
      · rw [hstep, hid]; exact hocc2f

/-- `afterLast` characterisation: the result is the suffix after a final
occurrence, containing no further occurrence. -/
theorem afterLast_char (m : Str) (hm : m ≠ []) {s : Str} (hocc : occurs m s = true) :
    ∃ p, s = p ++ m ++ afterLast m s ∧ occurs m (afterLast m s) = false :=
  afterLastAux_char m hm (s.length + 1) s (Nat.lt_succ_self _) hocc

/-- `afterLast` is the identity when the pattern does not occur. -/
theorem afterLast_of_noOcc {m s : Str} (h : occurs m s = false) : afterLast m s = s :=
  afterLastAux_of_noOcc h _

/-- Two append decompositions around the pattern with occurrence-free tails
cannot put the pattern at different offsets, provided the pattern has no
nonempty proper border (no self-overlap). -/
theorem tail_unique_aux (m : Str) (hm : m ≠ [])
    (hbf : ∀ k < m.length, 0 < k → m.take k ≠ m.drop (m.length - k))
    {p1 r1 p2 r2 : Str} (heq : p1 ++ m ++ r1 = p2 ++ m ++ r2)
    (h1 : occurs m r1 = false) (hlt : p1.length < p2.length) : False := by
  have heqA : p1 ++ (m ++ r1) = p2 ++ (m ++ r2) := by
    simpa [List.append_assoc] using heq
  have hd1 : (p1 ++ (m ++ r1)).drop p1.length = m ++ r1 := List.drop_left _ _
  have hd2 : (p2 ++ (m ++ r2)).drop p1.length = p2.drop p1.length ++ (m ++ r2) :=
    List.drop_append_of_le_length (le_of_lt hlt)
  have heq2 : m ++ r1 = p2.drop p1.length ++ (m ++ r2) := by
    rw [← hd1, heqA, hd2]
  set t := p2.drop p1.length with htdef
  have htlen : t.length = p2.length - p1.length := List.length_drop _ _
  have htpos : 0 < t.length := by omega
  by_cases hc : m.length ≤ t.length
  · have h3 : (t ++ (m ++ r2)).drop m.length = t.drop m.length ++ (m ++ r2) :=
      List.drop_append_of_le_length hc
    have hr1 : r1 = t.drop m.length ++ (m ++ r2) := by
      calc r1 = (m ++ r1).drop m.length := (List.drop_left m r1).symm
        _ = (t ++ (m ++ r2)).drop m.length := by rw [heq2]
        _ = t.drop m.length ++ (m ++ r2) := h3
    have hocc : occurs m r1 = true := by
      rw [hr1]
      have := occurs_concat m hm (t.drop m.length) r2
      simpa [List.append_assoc] using this
    rw [h1] at hocc
    exact Bool.false_ne_true hocc
  · push_neg at hc
    have e1 : (m ++ r1).take t.length = m.take t.length :=
      List.take_append_of_le_length (le_of_lt hc)
    have e2 : (t ++ (m ++ r2)).take t.length = t := List.take_left _ _
    have eT : m.take t.length = t := by rw [← e1, heq2, e2]
    have f1 : (m ++ r1).drop t.length = m.drop t.length ++ r1 :=
      List.drop_append_of_le_length (le_of_lt hc)
    have f2 : (t ++ (m ++ r2)).drop t.length = m ++ r2 := List.drop_left _ _
    have eD : m.drop t.length ++ r1 = m ++ r2 := by rw [← f1, heq2, f2]
    have hdl : (m.drop t.length).length = m.length - t.length := List.length_drop _ _
    have g1 : (m.drop t.length ++ r1).take (m.drop t.length).length = m.drop t.length :=
      List.take_left _ _
    rw [hdl] at g1
    have g2 : (m ++ r2).take (m.length - t.length) = m.take (m.length - t.length) :=
      List.take_append_of_le_length (Nat.sub_le _ _)
    have eB : m.drop t.length = m.take (m.length - t.length) := by
      rw [← g1, eD, g2]
    have hk1 : m.length - t.length < m.length := by omega
    have hk2 : 0 < m.length - t.length := by omega
    apply hbf (m.length - t.length) hk1 hk2
    have hts : m.length - (m.length - t.length) = t.length := by omega
    rw [hts, ← eB]

/-- Occurrence-free tails of two decompositions around a border-free
pattern coincide. -/
theorem tail_unique (m : Str) (hm : m ≠ [])
    (hbf : ∀ k < m.length, 0 < k → m.take k ≠ m.drop (m.length - k))
    {p1 r1 p2 r2 : Str} (heq : p1 ++ m ++ r1 = p2 ++ m ++ r2)
    (h1 : occurs m r1 = false) (h2 : occurs m r2 = false) : r1 = r2 := by
  rcases Nat.lt_trichotomy p1.length p2.length with h | h | h
  · exact (tail_unique_aux m hm hbf heq h1 h).elim
  · have heqA : p1 ++ (m ++ r1) = p2 ++ (m ++ r2) := by
      simpa [List.append_assoc] using heq
    obtain ⟨hp, hmr⟩ := List.append_inj heqA h
    exact List.append_cancel_left hmr
  · exact (tail_unique_aux m hm hbf heq.symm h2 h).elim

/-- The last-occurrence split of `x ++ m ++ a` is exactly `a` whenever the
border-free pattern `m` does not occur in `a`. -/
theorem afterLast_append (m : Str) (hm : m ≠ [])
    (hbf : ∀ k < m.length, 0 < k → m.take k ≠ m.drop (m.length - k))
    {a : Str} (ha : occurs m a = false) (x : Str) :
    afterLast m (x ++ m ++ a) = a := by
  have hocc := occurs_concat m hm x a
  obtain ⟨p, hp, hno⟩ := afterLast_char m hm hocc
  exact tail_unique m hm hbf hp.symm hno ha

/-- Scanning for the answer marker skips a leading newline. -/
theorem occurs_marker_cons_newline (z : Str) :
    occurs answerMarker ('\n' :: z) = occurs answerMarker z := by
  have hpre : answerMarker.isPrefixOf ('\n' :: z) = false := by
    rw [answerMarker, List.isPrefixOf]
    rfl
  rw [occurs, afterFirst?, hpre]
  simp [occurs]

/-- Stripping skips a leading whitespace character. -/
theorem pyStrip_cons_space {c : Char} (hc : pyIsSpace c = true) (l : Str) :
    pyStrip (c :: l) = pyStrip l := by
  simp [pyStrip, List.dropWhile_cons, hc]

/-- Stripping a string with a non-whitespace head is never empty. -/
theorem pyStrip_ne_nil_of_head {c : Char} (hc : pyIsSpace c = false) (l : Str) :
    pyStrip (c :: l) ≠ [] := by
  intro h
  rw [pyStrip, List.dropWhile_cons, hc] at h
  simp only [Bool.false_eq_true, if_false, List.reverse_eq_nil_iff,
    List.dropWhile_eq_nil_iff] at h
  have hcmem : c ∈ (c :: l).reverse := by simp
  have := h c hcmem
  rw [hc] at this
  exact Bool.false_ne_true this

/-- Nonempty lists are not `isEmpty`. -/
theorem isEmpty_false_of_ne_nil {l : Str} (h : l ≠ []) : l.isEmpty = false := by
  cases l with
  | nil => exact absurd rfl h
  | cons a as => rfl

/-- Shape of the stored entry for a stream delivering nonempty reasoning
then a nonempty answer: begin marker, reasoning, transition marker, answer. -/
theorem encodeEntry_shape {R A : Str} (hR : R ≠ []) (hA : A ≠ []) :
    encodeEntry true true R A = beginThink ++ R ++ transMarker ++ A := by
  have hRe := isEmpty_false_of_ne_nil hR
  have hAe := isEmpty_false_of_ne_nil hA
  simp [encodeEntry, streamOutputs, streamRun, rChunk, aChunk, chunkOut1, chunkOut2, rcOf,
    pyOrOpt, truthyOpt, optVal, startedAfter, transFlag, endedAfter, strJoin, hRe, hAe,
    List.append_assoc]

/-- Round trip on the answer channel: decoding the encoded entry recovers
the stripped answer, whenever the answer is nonempty and does not itself
contain the answer marker. -/
theorem encode_decode {R A : Str} (hR : R ≠ []) (hA : A ≠ [])
    (hocc : occurs answerMarker A = false) :
    decodeAssistant (encodeEntry true true R A) = pyStrip A := by
  have hshape := encodeEntry_shape hR hA
  have hshape2 : encodeEntry true true R A
      = (beginThink ++ R ++ ['\n', '\n']) ++ answerMarker ++ ('\n' :: '\n' :: A) := by
    rw [hshape, transMarker]
    simp [List.append_assoc]
  have htail : occurs answerMarker ('\n' :: '\n' :: A) = false := by
    rw [occurs_marker_cons_newline, occurs_marker_cons_newline]; exact hocc
  have hoccE : occurs answerMarker (encodeEntry true true R A) = true := by
    rw [hshape2]; exact occurs_concat _ (by decide) _ _
  have hbf : ∀ k < answerMarker.length, 0 < k →
      answerMarker.take k ≠ answerMarker.drop (answerMarker.length - k) := by decide
  have hAL : afterLast answerMarker (encodeEntry true true R A) = '\n' :: '\n' :: A := by
    rw [hshape2]
    exact afterLast_append _ (by decide) hbf htail _
  rw [decodeAssistant]
  simp only [hoccE, if_true]
  rw [hAL, pyStrip_cons_space (by decide), pyStrip_cons_space (by decide)]

/-! ## Helper lemmas on the streaming assembler -/

/-- In the reasoning phase, reasoning-only chunks are forwarded verbatim
with no additional marker. -/
theorem streamRun_reasoning_phase :
    ∀ (rs : List Str), (∀ r ∈ rs, r ≠ []) → ∀ rest,
      streamRun true true true false (rs.map rChunk ++ rest)
        = rs ++ streamRun true true true false rest := by
  intro rs
  induction rs with
  | nil => intro _ rest; simp
  | cons r rs ih =>
    intro hne rest
    have hr : r.isEmpty = false := isEmpty_false_of_ne_nil (hne r (by simp))
    have htail := ih (fun x hx => hne x (List.mem_cons_of_mem _ hx)) rest
    simp [streamRun, chunkOut1, chunkOut2, rChunk, rcOf, pyOrOpt, truthyOpt, optVal,
      startedAfter, transFlag, endedAfter, hr, htail]

/-- In the answer phase, answer-only chunks are forwarded verbatim with no
additional marker. -/
theorem streamRun_answer_phase :
    ∀ (as : List Str), (∀ a ∈ as, a ≠ []) →
      streamRun true true true true (as.map aChunk) = as := by
  intro as
  induction as with
  | nil => intro _; simp [streamRun]
  | cons a as ih =>
    intro hne
    have ha : a.isEmpty = false := isEmpty_false_of_ne_nil (hne a (by simp))
    have htail := ih (fun x hx => hne x (List.mem_cons_of_mem _ hx))
    simp [streamRun, chunkOut1, chunkOut2, aChunk, rcOf, pyOrOpt, truthyOpt, optVal,
      startedAfter, transFlag, endedAfter, ha, htail]

/-- Closed form of the assembler output on a normally-shaped stream: all
reasoning fragments first, then all answer fragments, all nonempty. -/
theorem streamOutputs_normal (r0 : Str) (rs : List Str) (a0 : Str) (as : List Str)
    (hr : ∀ r ∈ r0 :: rs, r ≠ []) (ha : ∀ a ∈ a0 :: as, a ≠ []) :
    streamOutputs true true ((r0 :: rs).map rChunk ++ (a0 :: as).map aChunk)
      = beginThink :: (r0 :: rs) ++ transMarker :: (a0 :: as) := by
  have hr0 : r0.isEmpty = false := isEmpty_false_of_ne_nil (hr r0 (by simp))
  have ha0 : a0.isEmpty = false := isEmpty_false_of_ne_nil (ha a0 (by simp))
  have hrest : ∀ x ∈ rs, x ≠ [] := fun x hx => hr x (List.mem_cons_of_mem _ hx)
  have harest : ∀ x ∈ as, x ≠ [] := fun x hx => ha x (List.mem_cons_of_mem _ hx)
  have h2 : streamRun true true true false (aChunk a0 :: as.map aChunk)
      = transMarker :: a0 :: streamRun true true true true (as.map aChunk) := by
    simp [streamRun, chunkOut1, chunkOut2, aChunk, rcOf, pyOrOpt, truthyOpt, optVal,
      startedAfter, transFlag, endedAfter, ha0]
  have h1 : streamRun true true false false (rChunk r0 :: (rs.map rChunk ++ (a0 :: as).map aChunk))
      = beginThink :: r0 :: streamRun true true true false (rs.map rChunk ++ (a0 :: as).map aChunk) := by
    simp [streamRun, chunkOut1, chunkOut2, rChunk, rcOf, pyOrOpt, truthyOpt, optVal,
      startedAfter, transFlag, endedAfter, hr0]
  rw [streamOutputs, List.map_cons, List.cons_append, h1,
    streamRun_reasoning_phase rs hrest _, List.map_cons, h2,
    streamRun_answer_phase as harest]
  simp

/-- A stream with no effective reasoning fragment yields exactly its answer
fragments, with no markers at all. -/
theorem streamRun_no_reasoning :
    ∀ (ds : List Delta) (en : Bool), (∀ d ∈ ds, truthyOpt (rcOf d) = false) →
      streamRun true true false en ds = answerFrags ds := by
  intro ds
  induction ds with
  | nil => intro en _; rfl
  | cons d ds ih =>
    intro en h
    have hd := h d (by simp)
    have htail := ih en (fun x hx => h x (List.mem_cons_of_mem _ hx))
    simp [streamRun, answerFrags, chunkOut1, chunkOut2, startedAfter, transFlag,
      endedAfter, hd, htail]

/-- The string assembler renders the tagged assembler, chunk part 1. -/
theorem chunkOut1_render (e s st : Bool) (d : Delta) :
    chunkOut1 e s st d = (chunkOut1T e s st d).map OutFrag.render := by
  cases hb : truthyOpt (rcOf d) && e && s <;> cases st <;>
    simp [chunkOut1, chunkOut1T, hb, OutFrag.render]

/-- The string assembler renders the tagged assembler, chunk part 2. -/
theorem chunkOut2_render (e s st en : Bool) (d : Delta) :
    chunkOut2 e s st en d = (chunkOut2T e s st en d).map OutFrag.render := by
  cases hb : truthyOpt d.content <;> cases htr : transFlag e s st en d <;>
    simp [chunkOut2, chunkOut2T, hb, htr, OutFrag.render]

/-- The string assembler is the rendering of the tagged assembler. -/
theorem streamRun_render (e s : Bool) :
    ∀ (ds : List Delta) (st en : Bool),
      streamRun e s st en ds = (streamRunT e s st en ds).map OutFrag.render := by
  intro ds
  induction ds with
  | nil => intro st en; rfl
  | cons d ds ih =>
    intro st en
    simp [streamRun, streamRunT, chunkOut1_render, chunkOut2_render, ih]

/-- Dropping the markers from the tagged assembler output recovers the
stream fragments in exact arrival order, from any state. -/
theorem streamRunT_order :
    ∀ (ds : List Delta) (st en : Bool),
      (streamRunT true true st en ds).filterMap fragText = displayedFrags ds := by
  intro ds
  induction ds with
  | nil => intro st en; rfl
  | cons d ds ih =>
    intro st en
    rw [streamRunT, displayedFrags]
    have e1 : (chunkOut1T true true st d).filterMap fragText
        = (if truthyOpt (rcOf d) then [optVal (rcOf d)] else []) := by
      cases hb : truthyOpt (rcOf d) <;> cases st <;>
        simp [chunkOut1T, hb, fragText]
    have e2 : (chunkOut2T true true st en d).filterMap fragText
        = (if truthyOpt d.content then [optVal d.content] else []) := by
      cases hb : truthyOpt d.content <;> cases htr : transFlag true true st en d <;>
        simp [chunkOut2T, hb, htr, fragText]
    simp [List.filterMap_append, e1, e2, ih]

/-! ## Helper lemmas on the context builder -/

/-- A history entry with blank raw content contributes nothing. -/
theorem msgEntry?_blank {msg : HistMsg} (h : pyStrip (normContent msg.content) = []) :
    msgEntry? msg = none := by
  simp [msgEntry?, h]

/-- Context built over a single stored assistant entry with non-blank raw
content. -/
theorem buildMessages_single_assistant (sp m : Str) (c : Str)
    (hne : pyStrip c ≠ []) :
    buildMessages sp 1 [⟨S "assistant", RawContent.str c⟩] m
      = [(S "system", sp), (S "assistant", decodeAssistant c), (S "user", m)] := by
  have he : (pyStrip c).isEmpty = false := isEmpty_false_of_ne_nil hne
  simp [buildMessages, pyLastSlice, processMsgs, msgEntry?, normContent, he]

/-- The encoded entry of a nonempty reasoning/answer pair starts with the
non-whitespace head of the begin-reasoning marker. -/
theorem encodeEntry_head {R A : Str} (hR : R ≠ []) (hA : A ≠ []) :
    ∃ tl, encodeEntry true true R A = '>' :: tl := by
  rw [encodeEntry_shape hR hA, beginThink]
  exact ⟨_, rfl⟩

/-! ## Claim theorems -/

/-- Claim C1, counterexample: a turn whose stream delivered only reasoning
fragments stores an entry with reasoning text but no answer marker; on the
next turn the context builder forwards that entry verbatim, so the payload
sent to the remote model contains the raw reasoning text. -/
theorem c1_counterexample :
    strJoin (streamOutputs true true [rChunk (S "secret")]) = S ">> ## 思考过程\n\nsecret" ∧
    buildMessages (S "sys") 3
        [⟨S "assistant", RawContent.str (S ">> ## 思考过程\n\nsecret")⟩] (S "hi")
      = [(S "system", S "sys"), (S "assistant", S ">> ## 思考过程\n\nsecret"),
         (S "user", S "hi")] ∧
    occurs (S "secret") (S ">> ## 思考过程\n\nsecret") = true :=
  ⟨by decide, by decide, by decide⟩

/-- Claim C1 (corrected): for a stored assistant entry produced by the
encoder from nonempty reasoning `R` and a nonempty answer `A` that does not
contain the answer marker, the context builder forwards exactly the
stripped answer, so no reasoning text reaches the payload.  The original
claim fails for entries holding only reasoning and no answer marker, which
are forwarded verbatim (see the counterexample). -/
theorem c1_theorem (sp m R A : Str) (hR : R ≠ []) (hA : A ≠ [])
    (hocc : occurs answerMarker A = false) :
    buildMessages sp 1 [⟨S "assistant", RawContent.str (encodeEntry true true R A)⟩] m
      = [(S "system", sp), (S "assistant", pyStrip A), (S "user", m)] := by
  obtain ⟨tl, htl⟩ := encodeEntry_head hR hA
  have hne : pyStrip (encodeEntry true true R A) ≠ [] := by
    rw [htl]; exact pyStrip_ne_nil_of_head (by decide) tl
  rw [buildMessages_single_assistant sp m _ hne, encode_decode hR hA hocc]

/-- Witness for C1 at a concrete reasoning/answer pair. -/
theorem c1_witness :
    buildMessages (S "p") 1
        [⟨S "assistant", RawContent.str (encodeEntry true true (S "think") (S "ans"))⟩]
        (S "q")
      = [(S "system", S "p"), (S "assistant", pyStrip (S "ans")), (S "user", S "q")] :=
  c1_theorem (S "p") (S "q") (S "think") (S "ans") (by decide) (by decide) (by decide)

/-- Claim C2 (confirmed): an assistant entry containing the current answer
marker decodes by splitting at the final marker occurrence of the
left-to-right scan (nothing after the returned tail is another occurrence)
and stripping whitespace; an entry without the current marker but with the
legacy opening tag splits likewise at the final legacy closing tag and
strips (when the closing tag is absent the whole entry is merely
stripped); the doubled-marker examples for both forms decode to the text
after the last occurrence; an entry with neither marker form decodes to
the whole entry unchanged (no reasoning text is ever produced). -/
theorem c2_theorem :
    (∀ e : Str, occurs answerMarker e = true →
      ∃ pre, e = pre ++ answerMarker ++ afterLast answerMarker e ∧
        occurs answerMarker (afterLast answerMarker e) = false ∧
        decodeAssistant e = pyStrip (afterLast answerMarker e)) ∧
    (∀ e : Str, occurs answerMarker e = false → occurs detailsOpen e = true →
      occurs detailsClose e = true →
      ∃ pre, e = pre ++ detailsClose ++ afterLast detailsClose e ∧
        occurs detailsClose (afterLast detailsClose e) = false ∧
        decodeAssistant e = pyStrip (afterLast detailsClose e)) ∧
    (∀ e : Str, occurs answerMarker e = false → occurs detailsOpen e = true →
      occurs detailsClose e = false →
      decodeAssistant e = pyStrip e) ∧
    decodeAssistant (S "R >> ## 完整回复 part1 >> ## 完整回复 part2") = S "part2" ∧
    decodeAssistant (S "<details>think</details> old1 </details> old2 ") = S "old2" ∧
    (∀ e : Str, occurs answerMarker e = false → occurs detailsOpen e = false →
      decodeAssistant e = e) := by
  refine ⟨?_, ?_, ?_, by decide, by decide, ?_⟩
  · intro e he
    obtain ⟨p, hp, hno⟩ := afterLast_char answerMarker (by decide) he
    refine ⟨p, hp, hno, ?_⟩
    simp [decodeAssistant, he]
  · intro e h1 h2 h3
    obtain ⟨p, hp, hno⟩ := afterLast_char detailsClose (by decide) h3
    refine ⟨p, hp, hno, ?_⟩
    simp [decodeAssistant, h1, h2]
  · intro e h1 h2 h3
    have hid : afterLast detailsClose e = e := afterLast_of_noOcc h3
    simp [decodeAssistant, h1, h2, hid]
  · intro e h1 h2
    simp [decodeAssistant, h1, h2]

/-- Witness for C2 at concrete entries of the current and the legacy
marker forms. -/
theorem c2_witness :
    (∃ pre, S "R >> ## 完整回复 X"
        = pre ++ answerMarker ++ afterLast answerMarker (S "R >> ## 完整回复 X") ∧
      occurs answerMarker (afterLast answerMarker (S "R >> ## 完整回复 X")) = false ∧
      decodeAssistant (S "R >> ## 完整回复 X")
        = pyStrip (afterLast answerMarker (S "R >> ## 完整回复 X"))) ∧
    (∃ pre, S "<details>T</details> Y"
        = pre ++ detailsClose ++ afterLast detailsClose (S "<details>T</details> Y") ∧
      occurs detailsClose (afterLast detailsClose (S "<details>T</details> Y")) = false ∧
      decodeAssistant (S "<details>T</details> Y")
        = pyStrip (afterLast detailsClose (S "<details>T</details> Y"))) ∧
    decodeAssistant (S "<details>unterminated") = pyStrip (S "<details>unterminated") :=
  ⟨c2_theorem.1 (S "R >> ## 完整回复 X") (by decide),
   c2_theorem.2.1 (S "<details>T</details> Y") (by decide) (by decide) (by decide),
   c2_theorem.2.2.1 (S "<details>unterminated") (by decide) (by decide) (by decide)⟩

/-- Claim C3, counterexample: when the answer text itself contains the
answer marker, the decode of the encode splits inside the answer, so the
round trip does not return the stripped answer. -/
theorem c3_counterexample :
    decodeAssistant (encodeEntry true true (S "r") (S "x >> ## 完整回复 y")) = S "y" ∧
    pyStrip (S "x >> ## 完整回复 y") = S "x >> ## 完整回复 y" ∧
    S "y" ≠ S "x >> ## 完整回复 y" :=
  ⟨by decide, by decide, by decide⟩

/-- Claim C3 (corrected): for nonempty reasoning `R` and nonempty answer
`A` not containing the answer marker, decoding the encoded entry yields the
stripped answer; with reasoning disabled, or with empty reasoning, the
encoded entry is exactly `A` with no markers injected. -/
theorem c3_theorem :
    (∀ R A : Str, R ≠ [] → A ≠ [] → occurs answerMarker A = false →
      decodeAssistant (encodeEntry true true R A) = pyStrip A) ∧
    (∀ (s : Bool) (R A : Str), encodeEntry false s R A = A) ∧
    (∀ (s : Bool) (A : Str), encodeEntry true s [] A = A) := by
  refine ⟨fun R A hR hA hocc => encode_decode hR hA hocc, ?_, ?_⟩
  · intro s R A
    cases hA : A.isEmpty with
    | false =>
      simp [encodeEntry, streamOutputs, streamRun, chunkOut1, chunkOut2, rChunk, aChunk,
        rcOf, pyOrOpt, truthyOpt, optVal, startedAfter, transFlag, endedAfter, strJoin, hA]
    | true =>
      have hAn : A = [] := by simpa using hA
      subst hAn
      simp [encodeEntry, streamOutputs, streamRun, chunkOut1, chunkOut2, rChunk, aChunk,
        rcOf, pyOrOpt, truthyOpt, optVal, startedAfter, transFlag, endedAfter, strJoin]
  · intro s A
    cases hA : A.isEmpty with
    | false =>
      simp [encodeEntry, streamOutputs, streamRun, chunkOut1, chunkOut2, rChunk, aChunk,
        rcOf, pyOrOpt, truthyOpt, optVal, startedAfter, transFlag, endedAfter, strJoin, hA]
    | true =>
      have hAn : A = [] := by simpa using hA
      subst hAn
      simp [encodeEntry, streamOutputs, streamRun, chunkOut1, chunkOut2, rChunk, aChunk,
        rcOf, pyOrOpt, truthyOpt, optVal, startedAfter, transFlag, endedAfter, strJoin]

/-- Witness for C3 at a concrete reasoning/answer pair. -/
theorem c3_witness :
    decodeAssistant (encodeEntry true true (S "think") (S " hello "))
      = pyStrip (S " hello ") :=
  c3_theorem.1 (S "think") (S " hello ") (by decide) (by decide) (by decide)

/-- Claim C4 (confirmed): dropping the two markers from the tagged
assembler output recovers the fragments in exact arrival order, and the
string output renders that tagged output; on a normally-shaped stream
(nonempty reasoning fragments then nonempty answer fragments) the output
is exactly begin-marker, the reasoning fragments, transition-marker, the
answer fragments; a stream with no reasoning fragments yields exactly its
answer fragments with no markers; the four-fragment example emits the six
expected outputs in order. -/
theorem c4_theorem :
    (∀ (ds : List Delta) (st en : Bool),
      (streamRunT true true st en ds).filterMap fragText = displayedFrags ds ∧
      streamRun true true st en ds = (streamRunT true true st en ds).map OutFrag.render) ∧
    (∀ (r0 : Str) (rs : List Str) (a0 : Str) (as : List Str),
      (∀ r ∈ r0 :: rs, r ≠ []) → (∀ a ∈ a0 :: as, a ≠ []) →
      streamOutputs true true ((r0 :: rs).map rChunk ++ (a0 :: as).map aChunk)
        = beginThink :: (r0 :: rs) ++ transMarker :: (a0 :: as)) ∧
    (∀ (ds : List Delta) (en : Bool), (∀ d ∈ ds, truthyOpt (rcOf d) = false) →
      streamRun true true false en ds = answerFrags ds) ∧
    streamOutputs true true [rChunk (S "a"), rChunk (S "b"), aChunk (S "x"), aChunk (S "y")]
      = [beginThink, S "a", S "b", transMarker, S "x", S "y"] :=
  ⟨fun ds st en => ⟨streamRunT_order ds st en, streamRun_render true true ds st en⟩,
   streamOutputs_normal, streamRun_no_reasoning, by decide⟩

/-- Witness for C4 at concrete streams. -/
theorem c4_witness :
    streamOutputs true true ((S "a" :: [S "b"]).map rChunk ++ (S "x" :: [S "y"]).map aChunk)
      = beginThink :: (S "a" :: [S "b"]) ++ transMarker :: (S "x" :: [S "y"]) ∧
    streamRun true true false false [aChunk (S "z")] = answerFrags [aChunk (S "z")] :=
  ⟨c4_theorem.2.1 (S "a") [S "b"] (S "x") [S "y"] (by decide) (by decide),
   c4_theorem.2.2.1 [aChunk (S "z")] false (by decide)⟩

/-- Claim C5, counterexample: a stream that ends while still in the
reasoning phase produces no closing marker at all; the output ends with the
last reasoning fragment and contains neither the transition marker nor the
legacy closing tag. -/
theorem c5_counterexample :
    streamOutputs true true [rChunk (S "a")] = [beginThink, S "a"] ∧
    transMarker ∉ streamOutputs true true [rChunk (S "a")] ∧
    detailsClose ∉ streamOutputs true true [rChunk (S "a")] :=
  ⟨by decide, by decide, by decide⟩

/-- Claim C5 (corrected): when the stream delivers only nonempty reasoning
fragments and no answer fragment, the assembler emits the begin marker and
the reasoning fragments and nothing else — no defensive closing marker is
appended after the last reasoning fragment. -/
theorem c5_theorem (r0 : Str) (rs : List Str) (h : ∀ r ∈ r0 :: rs, r ≠ []) :
    streamOutputs true true ((r0 :: rs).map rChunk) = beginThink :: r0 :: rs := by
  have hr0 : r0.isEmpty = false := isEmpty_false_of_ne_nil (h r0 (by simp))
  have hrest : ∀ x ∈ rs, x ≠ [] := fun x hx => h x (List.mem_cons_of_mem _ hx)
  rw [streamOutputs, List.map_cons]
  have h1 : streamRun true true false false (rChunk r0 :: rs.map rChunk)
      = beginThink :: r0 :: streamRun true true true false (rs.map rChunk) := by
    simp [streamRun, chunkOut1, chunkOut2, rChunk, rcOf, pyOrOpt, truthyOpt, optVal,
      startedAfter, transFlag, endedAfter, hr0]
  rw [h1]
  have h2 : streamRun true true true false (rs.map rChunk) = rs := by
    have := streamRun_reasoning_phase rs hrest []
    simpa [streamRun] using this
  rw [h2]

/-- Witness for C5 at a concrete reasoning-only stream. -/
theorem c5_witness :
    streamOutputs true true ((S "a" :: [S "b"]).map rChunk) = beginThink :: S "a" :: [S "b"] :=
  c5_theorem (S "a") [S "b"] (by decide)

/-- Claim C6 (confirmed): the built request consists of the system entry,
the processed last `context_size * 2` history entries, and the new user
entry — nothing older than the last `context_size` complete turns is ever
included; for the concrete 8-turn transcript and window 3 the request is
exactly the 8 expected entries, oldest first. -/
theorem c6_theorem :
    (∀ (sp : Str) (cs : Nat) (h : List HistMsg) (m : Str), 1 ≤ cs →
      buildMessages sp cs h m
        = (S "system", sp) :: (processMsgs (h.drop (h.length - cs * 2)) ++ [(S "user", m)])) ∧
    buildMessages (S "sys") 3 hist16 (S "new")
      = [(S "system", S "sys"), (S "user", S "u6"), (S "assistant", S "a6"),
         (S "user", S "u7"), (S "assistant", S "a7"), (S "user", S "u8"),
         (S "assistant", S "a8"), (S "user", S "new")] ∧
    (buildMessages (S "sys") 3 hist16 (S "new")).length = 8 := by
  refine ⟨?_, by decide, by decide⟩
  intro sp cs h m hcs
  have hne : cs * 2 ≠ 0 := by omega
  simp [buildMessages, pyLastSlice, hne]

/-- Witness for C6 at a concrete window size. -/
theorem c6_witness :
    buildMessages (S "p") 3 hist16 (S "q")
      = (S "system", S "p")
          :: (processMsgs (hist16.drop (hist16.length - 3 * 2)) ++ [(S "user", S "q")]) :=
  c6_theorem.1 (S "p") 3 hist16 (S "q") (by decide)

/-- Claim C7, counterexample: an assistant entry whose raw content is
non-blank but whose decoded answer is whitespace-only is not dropped; the
context builder forwards it with empty content. -/
theorem c7_counterexample :
    buildMessages (S "s") 1 [⟨S "assistant", RawContent.str (S "x >> ## 完整回复 ")⟩] (S "m")
      = [(S "system", S "s"), (S "assistant", []), (S "user", S "m")] ∧
    (S "assistant", ([] : Str)) ∈
      buildMessages (S "s") 1 [⟨S "assistant", RawContent.str (S "x >> ## 完整回复 ")⟩] (S "m") :=
  ⟨by decide, by decide⟩

/-- Claim C7 (corrected): the emptiness check runs on the raw content
before marker splitting — an entry whose raw content (after concatenating
the text-typed parts) is empty or whitespace-only is dropped entirely;
an assistant entry whose content becomes empty only after marker splitting
is still forwarded, with empty content (see the counterexample). -/
theorem c7_theorem (msg : HistMsg) (rest : List HistMsg)
    (h : pyStrip (normContent msg.content) = []) :
    processMsgs (msg :: rest) = processMsgs rest := by
  simp [processMsgs, List.filterMap_cons, msgEntry?_blank h]

/-- Witness for C7 at a concrete whitespace-only entry. -/
theorem c7_witness :
    processMsgs (⟨S "user", RawContent.str (S "   ")⟩ :: [⟨S "user", RawContent.str (S "hi")⟩])
      = processMsgs [⟨S "user", RawContent.str (S "hi")⟩] :=
  c7_theorem _ _ (by decide)

/-- Claim C8 (confirmed): every fault is converted at the turn boundary
into exactly one trailing human-readable error fragment (the yield sequence
is total, nothing propagates); an authentication fault on an empty stream
yields exactly the fixed error string, which contains no reasoning or
answer markers and decodes to itself. -/
theorem c8_theorem :
    (∀ (e s : Bool) (chunks : List Delta) (f : Fault),
      chatResponseOutputs e s ⟨chunks, some f⟩ = streamOutputs e s chunks ++ [errMsg f]) ∧
    chatResponseOutputs true true ⟨[], some Fault.auth⟩
      = [S "错误: API 密钥无效或已过期，请检查配置"] ∧
    decodeAssistant (errMsg Fault.auth) = errMsg Fault.auth ∧
    occurs answerMarker (errMsg Fault.auth) = false ∧
    occurs beginThink (errMsg Fault.auth) = false ∧
    occurs detailsOpen (errMsg Fault.auth) = false :=
  ⟨fun _ _ _ _ => rfl, by decide, by decide, by decide, by decide, by decide⟩

/-- Claim C9 (confirmed): selecting a model sets the session model id and
forces the thinking toggle off exactly when the resolved configuration
lacks thinking support (flag false or absent); all other state fields are
untouched, and a supporting model leaves the prior toggle unchanged. -/
theorem c9_theorem (models : List ModelConfig) (fallback : ModelConfig) (mid : Str)
    (st : UserState) (mc : ModelConfig)
    (h : models.reverse.find? (fun m0 => m0.id == mid) = some mc) :
    (update_model models fallback mid st).model_id = mid ∧
    (update_model models fallback mid st).enable_thinking
      = (if mc.supports_thinking.getD false then st.enable_thinking else false) ∧
    (update_model models fallback mid st).context_size = st.context_size ∧
    (update_model models fallback mid st).system_prompt = st.system_prompt := by
  cases hb : mc.supports_thinking.getD false <;>
    simp [update_model, getModelConfig, h, hb]

/-- Witness for C9 at a concrete two-model registry: selecting the model
with the flag absent forces thinking off. -/
theorem c9_witness :
    (update_model [⟨S "m1", some true⟩, ⟨S "m2", none⟩] ⟨S "m1", some true⟩ (S "m2")
        ⟨S "m1", 5, S "p", true⟩).model_id = S "m2" ∧
    (update_model [⟨S "m1", some true⟩, ⟨S "m2", none⟩] ⟨S "m1", some true⟩ (S "m2")
        ⟨S "m1", 5, S "p", true⟩).enable_thinking
      = (if (Option.none : Option Bool).getD false then true else false) ∧
    (update_model [⟨S "m1", some true⟩, ⟨S "m2", none⟩] ⟨S "m1", some true⟩ (S "m2")
        ⟨S "m1", 5, S "p", true⟩).context_size = 5 ∧
    (update_model [⟨S "m1", some true⟩, ⟨S "m2", none⟩] ⟨S "m1", some true⟩ (S "m2")
        ⟨S "m1", 5, S "p", true⟩).system_prompt = S "p" :=
  c9_theorem [⟨S "m1", some true⟩, ⟨S "m2", none⟩] ⟨S "m1", some true⟩ (S "m2")
    ⟨S "m1", 5, S "p", true⟩ ⟨S "m2", none⟩ (by decide)

/-- Claim C10 (confirmed): a blank prompt resets the stored system prompt
to the stripped configured default, a non-blank prompt is stored stripped,
and when the configured default is non-blank the stored prompt is never
empty after the update. -/
theorem c10_theorem (cfg prompt : Str) (st : UserState) :
    ((prompt.isEmpty || (pyStrip prompt).isEmpty) = true →
      (update_system_prompt cfg prompt st).system_prompt = pyStrip cfg) ∧
    ((prompt.isEmpty || (pyStrip prompt).isEmpty) = false →
      (update_system_prompt cfg prompt st).system_prompt = pyStrip prompt) ∧
    (pyStrip cfg ≠ [] → (update_system_prompt cfg prompt st).system_prompt ≠ []) := by
  refine ⟨?_, ?_, ?_⟩
  · intro h; simp [update_system_prompt, h]
  · intro h; simp [update_system_prompt, h]
  · intro h
    cases hb : (prompt.isEmpty || (pyStrip prompt).isEmpty) with
    | false =>
      have hp : (pyStrip prompt).isEmpty = false := by
        revert hb; cases prompt.isEmpty <;> cases (pyStrip prompt).isEmpty <;> simp
      have hpn : pyStrip prompt ≠ [] := by
        intro hnil; rw [hnil] at hp; simp at hp
      simpa [update_system_prompt, hb] using hpn
    | true =>
      simpa [update_system_prompt, hb] using h

/-- Witness for C10 at a concrete blank prompt and non-blank default. -/
theorem c10_witness :
    (update_system_prompt (S "default") (S "   ") ⟨S "m", 5, S "x", true⟩).system_prompt
        = pyStrip (S "default") ∧
    (update_system_prompt (S "default") (S "   ") ⟨S "m", 5, S "x", true⟩).system_prompt ≠ [] :=
  ⟨(c10_theorem (S "default") (S "   ") ⟨S "m", 5, S "x", true⟩).1 (by decide),
   (c10_theorem (S "default") (S "   ") ⟨S "m", 5, S "x", true⟩).2.2 (by decide)⟩

end ChatApp
